import Mathlib

/-!
A verification development for the FinanceAI-chat backend (main.py).

The Python backend is shallowly embedded as follows.

Floating point numbers that the backend computes with are idealised as
exact rationals; closing prices are lists of rationals.  The one float
phenomenon the backend observably relies on is quiet NaN propagation in
pandas (the sample standard deviation of fewer than two samples is NaN,
and NaN survives multiplication and rounding), which is embedded
explicitly by the type PFloat below; a volatility value contains a real
square root and therefore lives in the reals.

The market data source (yfinance) is embedded as an environment: a
function from ticker and period to an optional price series, and a
function from ticker to an optional fundamentals record.  A download
that raises, an empty frame, or a frame without a Close column cannot
be told apart by the backend other than through the guard
`data.empty or Close not in data`; the absent-series case of the
environment covers a raising download and a missing Close column, while
an empty list covers an empty frame.

Python dictionaries are embedded as association lists in insertion
order; dictionary iteration order in CPython is insertion order, which
is what the tie-breaking behaviour of the comparators rests on.
CPython round() rounds half to even, embedded by roundHE below.
-/

namespace FinanceAI

/-- Round half to even on the scaled value, as CPython round() does on
an exactly represented value. -/
def roundHE {α : Type} [LinearOrderedField α] [FloorRing α]
    [DecidableRel ((· < ·) : α → α → Prop)] (x : α) : ℤ :=
  let f : ℤ := Int.floor x
  let r : α := x - (f : α)
  if r < 1 / 2 then f
  else if 1 / 2 < r then f + 1
  else if f % 2 = 0 then f else f + 1

/-- Rounding to two decimal places: round(x, 2) in the source. -/
def round2 {α : Type} [LinearOrderedField α] [FloorRing α]
    [DecidableRel ((· < ·) : α → α → Prop)] (x : α) : α :=
  ((roundHE (x * 100) : ℤ) : α) / 100

/-- A float value as the backend sees it: either quiet NaN or a real. -/
inductive PFloat where
  | nan : PFloat
  | val : ℝ → PFloat

noncomputable instance : DecidableEq PFloat := Classical.typeDecidableEq PFloat

/-- get_return from main.py.  The argument is the outcome of
yf.download followed by the `data.empty or Close not in data` guard:
none when the download raised or there is no Close column, otherwise
the list of closing prices.  The source computes
(end_price - start_price) / start_price * 100 from the first and last
entries and rounds to two decimals. -/
def get_return (fetched : Option (List ℚ)) : Option ℚ :=
  match fetched with
  | none => none
  | some [] => none
  | some (c :: rest) =>
      some (round2 (((c :: rest).getLastD 0 - c) / c * 100))

/-- get_max_min from main.py: the rounded maximum and minimum closing
price, none on an absent or empty series. -/
def get_max_min (fetched : Option (List ℚ)) : Option (ℚ × ℚ) :=
  match fetched with
  | none => none
  | some [] => none
  | some (c :: rest) =>
      some (round2 (rest.foldl max c), round2 (rest.foldl min c))

/-- Day-over-day percentage changes, Close.pct_change().dropna() in the
source: the first (undefined) change never materialises here, matching
dropna removing the leading NaN. -/
def pctChanges (closes : List ℚ) : List ℚ :=
  (closes.zip closes.tail).map (fun p => (p.2 - p.1) / p.1)

/-- Sample variance with ddof 1, as pandas std squares it.  Meaningful
for two or more samples; pandasStd below only evaluates it there. -/
def sampleVar (xs : List ℚ) : ℚ :=
  let n : ℚ := (xs.length : ℚ)
  let mean : ℚ := xs.sum / n
  (xs.map (fun x => (x - mean) ^ 2)).sum / (n - 1)

/-- pandas Series.std() with the default ddof 1: NaN for fewer than two
samples, otherwise the square root of the sample variance. -/
noncomputable def pandasStd (xs : List ℚ) : PFloat :=
  if xs.length ≤ 1 then PFloat.nan
  else PFloat.val (Real.sqrt ((sampleVar xs : ℚ) : ℝ))

/-- get_volatility from main.py: annualised standard deviation of the
daily percentage changes.  The source multiplies the pandas std by
sqrt 252, then by 100, and rounds; when the std is NaN the whole
product and the rounding stay NaN, embedded by the case split. -/
noncomputable def get_volatility (fetched : Option (List ℚ)) : Option PFloat :=
  match fetched with
  | none => none
  | some [] => none
  | some (c :: rest) =>
      match pandasStd (pctChanges (c :: rest)) with
      | PFloat.nan => some PFloat.nan
      | PFloat.val s =>
          some (PFloat.val (round2 (s * Real.sqrt 252 * 100)))

/-- The raw info mapping of yf.Ticker, restricted to the six keys the
backend reads.  A numeric attribute is idealised as a rational. -/
structure YfInfo where
  longName : Option String
  marketCap : Option ℚ
  trailingPE : Option ℚ
  trailingEps : Option ℚ
  dividendYield : Option ℚ
  debtToEquity : Option ℚ
deriving DecidableEq

/-- The record get_fundamentals builds, with the renamed keys. -/
structure Fundamentals where
  longName : Option String
  marketCap : Option ℚ
  peRatio : Option ℚ
  eps : Option ℚ
  dividendYield : Option ℚ
  debtToEquity : Option ℚ
deriving DecidableEq

/-- The source guards every numeric attribute with Python truthiness:
`float(info.get(k)) if info.get(k) else None`.  An absent value and a
present zero (falsy) both become None. -/
def numField (v : Option ℚ) : Option ℚ :=
  match v with
  | none => none
  | some x => if x = 0 then none else some x

/-- get_fundamentals from main.py.  The argument is the outcome of the
yf.Ticker info fetch: none when it raised.  longName passes through
unguarded; the five numeric attributes pass through the truthiness
guard; nothing is rounded. -/
def get_fundamentals (fetched : Option YfInfo) : Option Fundamentals :=
  match fetched with
  | none => none
  | some info =>
      some { longName := info.longName
             marketCap := numField info.marketCap
             peRatio := numField info.trailingPE
             eps := numField info.trailingEps
             dividendYield := numField info.dividendYield
             debtToEquity := numField info.debtToEquity }

/-- The external market data source: price series per ticker and
period, fundamentals per ticker. -/
structure Env where
  series : String → String → Option (List ℚ)
  fundamentals : String → Option YfInfo

/-- Assignment d[k] = v on a CPython dictionary embedded as an
association list: an existing key keeps its position, a new key is
appended. -/
def dictInsert {α : Type} (d : List (String × α)) (k : String) (v : α) :
    List (String × α) :=
  if d.any (fun p => p.1 = k) then
    d.map (fun p => if p.1 = k then (k, v) else p)
  else d ++ [(k, v)]

/-- The accumulation loop shared by all four comparators: resolve each
ticker in order, keep only the non-None results. -/
def buildDict {α : Type} (tickers : List String) (resolve : String → Option α) :
    List (String × α) :=
  tickers.foldl
    (fun d t => match resolve t with
      | some v => dictInsert d t v
      | none => d) []

/-- The loop inside CPython max(d, key) and min(d, key): the running
best is replaced exactly when rel holds of the best value and the new
value (for max, rel is strictly-less; for min, strictly-greater). -/
def pyRun {α : Type} (rel : α → α → Bool) (best : String × α) :
    List (String × α) → String × α
  | [] => best
  | p :: ps => pyRun rel (if rel best.2 p.2 then p else best) ps

/-- CPython max(d, key) or min(d, key) over a dictionary in iteration
order, returning the chosen key with its value; none on an empty
dictionary (where CPython would raise, which every call site guards). -/
def pyPick {α : Type} (rel : α → α → Bool) :
    List (String × α) → Option (String × α)
  | [] => none
  | x :: xs => some (pyRun rel x xs)

/-- Replacement test for a maximum over rationals. -/
def qMaxRel (a b : ℚ) : Bool := decide (a < b)

/-- Replacement test for a minimum over rationals. -/
def qMinRel (a b : ℚ) : Bool := decide (b < a)

/-- Replacement test for a maximum over floats: any comparison that
involves NaN is false in Python. -/
noncomputable def pfMaxRel (a b : PFloat) : Bool :=
  match a, b with
  | PFloat.val x, PFloat.val y => decide (x < y)
  | _, _ => false

/-- Replacement test for a minimum over floats. -/
noncomputable def pfMinRel (a b : PFloat) : Bool :=
  match a, b with
  | PFloat.val x, PFloat.val y => decide (y < x)
  | _, _ => false

def noReturnsDataMsg : String := "No data available for tickers"
def noVolDataMsg : String := "No volatility data available for tickers"
def noFundDataMsg : String := "No fundamentals data available for tickers"
def noMaxMinDataMsg : String := "No max/min data available for tickers"

/-- Result of compare_returns: either the error dictionary or the
ranking dictionary (best ticker, its return, and the per-ticker map). -/
inductive ReturnsCmp where
  | noData (msg : String)
  | ranking (best_ticker : String) (best_return : ℚ)
      (all_returns : List (String × ℚ))
deriving DecidableEq

/-- compare_returns from main.py.  performances collects the non-None
returns in ticker order; empty means the error dictionary; otherwise
max over the dictionary keyed by value.  best_return is the dictionary
lookup of the chosen key, which is the value pyPick pairs with it
because buildDict keys are unique. -/
def compare_returns (env : Env) (tickers : List String) (period : String) :
    ReturnsCmp :=
  let performances := buildDict tickers (fun t => get_return (env.series t period))
  match pyPick qMaxRel performances with
  | none => ReturnsCmp.noData noReturnsDataMsg
  | some bp => ReturnsCmp.ranking bp.1 bp.2 performances

/-- Result of compare_volatility. -/
inductive VolCmp where
  | noData (msg : String)
  | ranking (least_volatile : String) (least_volatility : PFloat)
      (most_volatile : String) (most_volatility : PFloat)
      (all_volatilities : List (String × PFloat))

/-- compare_volatility from main.py: min and max over the collected
non-None volatilities (a NaN volatility is not None and is collected). -/
noncomputable def compare_volatility (env : Env) (tickers : List String)
    (period : String) : VolCmp :=
  let volatilities := buildDict tickers (fun t => get_volatility (env.series t period))
  match pyPick pfMinRel volatilities, pyPick pfMaxRel volatilities with
  | some lp, some mp => VolCmp.ranking lp.1 lp.2 mp.1 mp.2 volatilities
  | _, _ => VolCmp.noData noVolDataMsg

/-- Result of compare_max_min: the ticker holding the single highest
max, the ticker holding the single lowest min, and the per-ticker map. -/
inductive MaxMinCmp where
  | noData (msg : String)
  | result (highest_max : String × ℚ) (lowest_min : String × ℚ)
      (all_data : List (String × (ℚ × ℚ)))
deriving DecidableEq

/-- compare_max_min from main.py. -/
def compare_max_min (env : Env) (tickers : List String) (period : String) :
    MaxMinCmp :=
  let max_min_data := buildDict tickers (fun t => get_max_min (env.series t period))
  let all_maxes := max_min_data.map (fun p => (p.1, p.2.1))
  let all_mins := max_min_data.map (fun p => (p.1, p.2.2))
  match pyPick qMaxRel all_maxes, pyPick qMinRel all_mins with
  | some hp, some lp => MaxMinCmp.result hp lp max_min_data
  | _, _ => MaxMinCmp.noData noMaxMinDataMsg

/-- The market-cap sub-comparison dictionary of compare_fundamentals:
the comprehension keeping tickers whose attribute is present, with no
positivity guard. -/
def subDictAll (attr : Fundamentals → Option ℚ)
    (data : List (String × Fundamentals)) : List (String × ℚ) :=
  data.filterMap (fun td => (attr td.2).map (fun v => (td.1, v)))

/-- The guarded sub-comparison dictionaries of compare_fundamentals:
the comprehension keeping tickers whose attribute is present and
strictly positive. -/
def subDictPos (attr : Fundamentals → Option ℚ)
    (data : List (String × Fundamentals)) : List (String × ℚ) :=
  data.filterMap (fun td =>
    match attr td.2 with
    | some v => if 0 < v then some (td.1, v) else none
    | none => none)

/-- The analysis part of compare_fundamentals: one optional winner per
attribute, absent exactly when no ticker qualifies for it. -/
structure FundAnalysis where
  largest_market_cap : Option (String × ℚ)
  best_pe_ratio : Option (String × ℚ)
  highest_dividend_yield : Option (String × ℚ)
  lowest_debt_to_equity : Option (String × ℚ)
deriving DecidableEq

/-- Result of compare_fundamentals. -/
inductive FundCmp where
  | noData (msg : String)
  | result (all_fundamentals : List (String × Fundamentals))
      (analysis : FundAnalysis)
deriving DecidableEq

/-- compare_fundamentals from main.py: collect the non-None records,
then run four independent sub-comparisons, each over its own filtered
dictionary — market cap the highest with no positivity guard, P/E the
lowest positive, dividend yield the highest positive, debt-to-equity
the lowest positive. -/
def compare_fundamentals (env : Env) (tickers : List String) : FundCmp :=
  let data := buildDict tickers (fun t => get_fundamentals (env.fundamentals t))
  match data with
  | [] => FundCmp.noData noFundDataMsg
  | _ =>
      FundCmp.result data
        { largest_market_cap := pyPick qMaxRel (subDictAll Fundamentals.marketCap data)
          best_pe_ratio := pyPick qMinRel (subDictPos Fundamentals.peRatio data)
          highest_dividend_yield := pyPick qMaxRel (subDictPos Fundamentals.dividendYield data)
          lowest_debt_to_equity := pyPick qMinRel (subDictPos Fundamentals.debtToEquity data) }

/-- A value of the structured request and result tree.  Besides the
JSON shapes the oracle can produce, resolved leaves hold the typed
records the resolvers and comparators return (in the source these are
plain Python dictionaries spliced into the parsed structure). -/
inductive JVal where
  | null : JVal
  | num (q : ℚ) : JVal
  | str (s : String) : JVal
  | bool (b : Bool) : JVal
  | arr (elems : List JVal) : JVal
  | obj (fields : List (String × JVal)) : JVal
  | real (x : PFloat) : JVal
  | maxmin (mx mn : ℚ) : JVal
  | fund (f : Fundamentals) : JVal
  | cRet (r : ReturnsCmp) : JVal
  | cVol (r : VolCmp) : JVal
  | cFund (r : FundCmp) : JVal
  | cMax (r : MaxMinCmp) : JVal

/-- The fields of a JSON object. -/
abbrev JObj := List (String × JVal)

/-- A Python None spliced into the tree is a JSON null. -/
def jOpt (o : Option JVal) : JVal := o.getD JVal.null

/-- A loop over a list whose body may raise: none when any element
raises, aborting the remainder. -/
def optTraverse {α β : Type} (f : α → Option β) : List α → Option (List β)
  | [] => some []
  | a :: as =>
      match f a, optTraverse f as with
      | some b, some bs => some (b :: bs)
      | _, _ => none

/-- The leaf update of the non-compare branches: for the three period
metrics the resolver output replaces the placeholder (None becoming
null), and for an unrecognised metric name no if-branch fires so the
placeholder is left as it was. -/
noncomputable def resolvePeriods (env : Env) (metric ticker : String)
    (periods : JObj) : JObj :=
  periods.map (fun pv =>
    if metric = "return" then
      (pv.1, jOpt ((get_return (env.series ticker pv.1)).map JVal.num))
    else if metric = "volatility" then
      (pv.1, jOpt ((get_volatility (env.series ticker pv.1)).map JVal.real))
    else if metric = "max_min" then
      (pv.1, jOpt ((get_max_min (env.series ticker pv.1)).map
        (fun mm => JVal.maxmin mm.1 mm.2)))
    else pv)

/-- One non-compare branch of the walker: fundamentals resolves once
per ticker ignoring the period container; every other metric name
iterates the period container of each ticker.  A tickers value or a
period container that is not a mapping raises in the source
(AttributeError on .items(), TypeError on iteration or on item
assignment) and is none here; list containers with in-range integer
elements fall outside the modelled domain. -/
noncomputable def resolveMetricBranch (env : Env) (metric : String) :
    JVal → Option JVal
  | JVal.obj tks =>
      if metric = "fundamentals" then
        some (JVal.obj (tks.map (fun tv =>
          (tv.1, jOpt ((get_fundamentals (env.fundamentals tv.1)).map JVal.fund)))))
      else
        (optTraverse (fun tv =>
          match tv.2 with
          | JVal.obj periods =>
              some (tv.1, JVal.obj (resolvePeriods env metric tv.1 periods))
          | _ => none) tks).map
          JVal.obj
  | _ => none

/-- The leaf update under the compare branch: the matching comparator
over all tickers of the sub-metric, or the untouched placeholder for an
unrecognised sub-metric name. -/
noncomputable def cmpLeaf (env : Env) (subMetric : String)
    (tickers : List String) (period : String) (old : JVal) : JVal :=
  if subMetric = "return" then JVal.cRet (compare_returns env tickers period)
  else if subMetric = "volatility" then JVal.cVol (compare_volatility env tickers period)
  else if subMetric = "fundamentals" then JVal.cFund (compare_fundamentals env tickers)
  else if subMetric = "max_min" then JVal.cMax (compare_max_min env tickers period)
  else old

/-- One sub-metric of the compare branch: for every ticker and every
period of that ticker, the comparator key list is
list(tickers_cmp.keys()) — all tickers of the sub-metric — and the
result is written into that ticker/period slot. -/
noncomputable def resolveSub (env : Env) (subMetric : String)
    (tickersCmp : JObj) : Option JObj :=
  optTraverse (fun tv =>
    match tv.2 with
    | JVal.obj periods =>
        some (tv.1, JVal.obj (periods.map (fun pv =>
          (pv.1, cmpLeaf env subMetric (tickersCmp.map Prod.fst) pv.1 pv.2))))
    | _ => none)
    tickersCmp

/-- The compare branch of the walker. -/
noncomputable def resolveCompare (env : Env) : JVal → Option JVal
  | JVal.obj subs =>
      (optTraverse (fun sv =>
        match sv.2 with
        | JVal.obj tickersCmp =>
            (resolveSub env sv.1 tickersCmp).map
              (fun filled => (sv.1, JVal.obj filled))
        | _ => none) subs).map
        JVal.obj
  | _ => none

def fetchErrorMsg : String := "Failed to fetch data"
def parseErrorMsg : String := "Failed to parse JSON from GPT"
def summaryErrorMsg : String := "Failed to generate natural language summary"

/-- The request walker of receive_prompt: iterate the top-level
branches, dispatching on the branch name; any exception escaping a
branch aborts the whole request with the single fetch error. -/
noncomputable def walk (env : Env) : JVal → Except String JVal
  | JVal.obj branches =>
      (match optTraverse (fun br =>
        if br.1 = "compare" then
          (resolveCompare env br.2).map (fun v => (br.1, v))
        else
          (resolveMetricBranch env br.1 br.2).map (fun v => (br.1, v))) branches with
      | none => Except.error fetchErrorMsg
      | some filled => Except.ok (JVal.obj filled))
  | _ => Except.error fetchErrorMsg

/-- The response envelope of the endpoint. -/
inductive Response where
  | error (message : String)
  | ok (result : JVal) (natural_language : String)

/-- receive_prompt from main.py with the two oracle calls abstracted:
parseResult is none when the first oracle answer does not parse,
summary is none when the second oracle call fails (which degrades to an
embedded error string, not an error response). -/
noncomputable def receive_prompt (parseResult : Option JVal) (env : Env)
    (summary : Option String) : Response :=
  match parseResult with
  | none => Response.error parseErrorMsg
  | some parsed =>
      match walk env parsed with
      | Except.error msg => Response.error msg
      | Except.ok filled =>
          Response.ok filled
            (match summary with
             | some s => s
             | none => summaryErrorMsg)

theorem roundHE_intCast {α : Type} [LinearOrderedField α] [FloorRing α]
    [DecidableRel ((· < ·) : α → α → Prop)] (n : ℤ) : roundHE ((n : α)) = n := by
  unfold roundHE
  rw [Int.floor_intCast]
  simp only [sub_self]
  rw [if_pos (by norm_num : (0 : α) < 1 / 2)]

theorem round2_intCast_div {α : Type} [LinearOrderedField α] [FloorRing α]
    [DecidableRel ((· < ·) : α → α → Prop)] (n : ℤ) :
    round2 ((n : α) / 100) = (n : α) / 100 := by
  unfold round2
  rw [div_mul_cancel₀ _ (by norm_num : (100 : α) ≠ 0), roundHE_intCast]

/-- Rounding to two decimals is a projection: the values the price
resolvers emit are fixed points of round2. -/
theorem round2_round2 {α : Type} [LinearOrderedField α] [FloorRing α]
    [DecidableRel ((· < ·) : α → α → Prop)] (x : α) :
    round2 (round2 x) = round2 x := by
  unfold round2
  rw [div_mul_cancel₀ _ (by norm_num : (100 : α) ≠ 0), roundHE_intCast]

/-- Specification of the CPython max/min loop: the result is the
running best after the whole list; it improves on the start unless it
is the start, nothing in the list strictly beats it, and when it is not
the start it is the first list entry carrying its value.  Only
irreflexivity and transitivity of the replacement test are needed, so
this also covers float comparisons in the presence of NaN. -/
theorem pyRun_spec {α : Type} [DecidableEq α] (rel : α → α → Bool)
    (hirr : ∀ a, rel a a = false)
    (htrans : ∀ a b c, rel a b = true → rel b c = true → rel a c = true) :
    ∀ (ps : List (String × α)) (best : String × α),
      (pyRun rel best ps = best ∨
        (pyRun rel best ps ∈ ps ∧ rel best.2 (pyRun rel best ps).2 = true)) ∧
      (∀ q ∈ ps, rel (pyRun rel best ps).2 q.2 = false) ∧
      (pyRun rel best ps ≠ best →
        ps.find? (fun q => q.2 = (pyRun rel best ps).2) = some (pyRun rel best ps)) := by
  intro ps
  induction ps with
  | nil =>
      intro best
      refine ⟨Or.inl rfl, ?_, ?_⟩
      · intro q hq; simp at hq
      · intro h; exact absurd rfl h
  | cons p ps ih =>
      intro best
      by_cases hrel : rel best.2 p.2 = true
      · have hred : pyRun rel best (p :: ps) = pyRun rel p ps := by
          simp [pyRun, hrel]
        obtain ⟨ih1, ih2, ih3⟩ := ih p
        rw [hred]
        refine ⟨?_, ?_, ?_⟩
        · rcases ih1 with h | ⟨hm, himp⟩
          · exact Or.inr ⟨by rw [h]; exact List.mem_cons_self p ps,
              by rw [h]; exact hrel⟩
          · exact Or.inr ⟨List.mem_cons_of_mem _ hm, htrans _ _ _ hrel himp⟩
        · intro q hq
          have hhead : rel (pyRun rel p ps).2 p.2 = false := by
            rcases ih1 with h | ⟨hm, himp⟩
            · rw [h]; exact hirr _
            · cases h2 : rel (pyRun rel p ps).2 p.2
              · rfl
              · have h3 : rel p.2 p.2 = true := htrans _ _ _ himp h2
                rw [hirr] at h3; exact absurd h3 (by simp)
          rcases List.mem_cons.mp hq with rfl | hq2
          · exact hhead
          · exact ih2 q hq2
        · intro _
          by_cases hrp : pyRun rel p ps = p
          · rw [List.find?_cons_of_pos _ (by rw [hrp]; simp)]
            rw [hrp]
          · rcases ih1 with h | ⟨hm, himp⟩
            · exact absurd h hrp
            · have hpe : ¬(p.2 = (pyRun rel p ps).2) := by
                intro he
                rw [← he] at himp
                rw [hirr] at himp; exact absurd himp (by simp)
              rw [List.find?_cons_of_neg _ (by simpa using hpe)]
              exact ih3 hrp
      · have hrel2 : rel best.2 p.2 = false := by
          revert hrel; cases rel best.2 p.2 <;> simp
        have hred : pyRun rel best (p :: ps) = pyRun rel best ps := by
          simp [pyRun, hrel2]
        obtain ⟨ih1, ih2, ih3⟩ := ih best
        rw [hred]
        refine ⟨?_, ?_, ?_⟩
        · rcases ih1 with h | ⟨hm, himp⟩
          · exact Or.inl h
          · exact Or.inr ⟨List.mem_cons_of_mem _ hm, himp⟩
        · intro q hq
          have hhead : rel (pyRun rel best ps).2 p.2 = false := by
            rcases ih1 with h | ⟨hm, himp⟩
            · rw [h]; exact hrel2
            · cases h2 : rel (pyRun rel best ps).2 p.2
              · rfl
              · have h3 : rel best.2 p.2 = true := htrans _ _ _ himp h2
                rw [hrel2] at h3; exact absurd h3 (by simp)
          rcases List.mem_cons.mp hq with rfl | hq2
          · exact hhead
          · exact ih2 q hq2
        · intro hne
          rcases ih1 with h | ⟨hm, himp⟩
          · exact absurd h hne
          · have hpe : ¬(p.2 = (pyRun rel best ps).2) := by
              intro he
              rw [← he] at himp
              rw [hrel2] at himp; exact absurd himp (by simp)
            rw [List.find?_cons_of_neg _ (by simpa using hpe)]
            exact ih3 hne

/-- Specification of pyPick on a nonempty dictionary: the chosen entry
is in the dictionary, no entry strictly beats it, and it is the first
entry carrying the winning value — the tie-break the comparators
inherit from dictionary insertion order. -/
theorem pyPick_spec {α : Type} [DecidableEq α] (rel : α → α → Bool)
    (hirr : ∀ a, rel a a = false)
    (htrans : ∀ a b c, rel a b = true → rel b c = true → rel a c = true)
    (d : List (String × α)) (r : String × α) (h : pyPick rel d = some r) :
    r ∈ d ∧ (∀ q ∈ d, rel r.2 q.2 = false) ∧
      d.find? (fun q => q.2 = r.2) = some r := by
  match d with
  | [] => simp [pyPick] at h
  | x :: xs =>
      have hr : pyRun rel x xs = r := by
        simpa [pyPick] using h
      obtain ⟨s1, s2, s3⟩ := pyRun_spec rel hirr htrans xs x
      rw [hr] at s1 s2 s3
      refine ⟨?_, ?_, ?_⟩
      · rcases s1 with h1 | ⟨hm, _⟩
        · rw [h1]; exact List.mem_cons_self x xs
        · exact List.mem_cons_of_mem _ hm
      · intro q hq
        have hhead : rel r.2 x.2 = false := by
          rcases s1 with h1 | ⟨hm, himp⟩
          · rw [h1]; exact hirr _
          · cases h2 : rel r.2 x.2
            · rfl
            · have h3 : rel x.2 x.2 = true := htrans _ _ _ himp h2
              rw [hirr] at h3; exact absurd h3 (by simp)
        rcases List.mem_cons.mp hq with rfl | hq2
        · exact hhead
        · exact s2 q hq2
      · by_cases hrx : r = x
        · rw [List.find?_cons_of_pos _ (by rw [hrx]; simp)]
          rw [hrx]
        · rcases s1 with h1 | ⟨hm, himp⟩
          · exact absurd h1 hrx
          · have hpe : ¬(x.2 = r.2) := by
              intro he
              rw [← he] at himp
              rw [hirr] at himp; exact absurd himp (by simp)
            rw [List.find?_cons_of_neg _ (by simpa using hpe)]
            exact s3 hrx

theorem pyPick_eq_none {α : Type} (rel : α → α → Bool)
    (d : List (String × α)) : pyPick rel d = none ↔ d = [] := by
  cases d <;> simp [pyPick]

theorem qMaxRel_irr : ∀ a : ℚ, qMaxRel a a = false := by
  intro a; simp [qMaxRel]

theorem qMaxRel_trans : ∀ a b c : ℚ,
    qMaxRel a b = true → qMaxRel b c = true → qMaxRel a c = true := by
  intro a b c hab hbc
  simp [qMaxRel] at *
  exact lt_trans hab hbc

theorem qMinRel_irr : ∀ a : ℚ, qMinRel a a = false := by
  intro a; simp [qMinRel]

theorem qMinRel_trans : ∀ a b c : ℚ,
    qMinRel a b = true → qMinRel b c = true → qMinRel a c = true := by
  intro a b c hab hbc
  simp [qMinRel] at *
  exact lt_trans hbc hab

theorem pfMaxRel_irr : ∀ a : PFloat, pfMaxRel a a = false := by
  intro a; cases a <;> simp [pfMaxRel]

theorem pfMaxRel_trans : ∀ a b c : PFloat,
    pfMaxRel a b = true → pfMaxRel b c = true → pfMaxRel a c = true := by
  intro a b c hab hbc
  cases a <;> cases b <;> cases c <;> simp [pfMaxRel] at *
  exact lt_trans hab hbc

theorem pfMinRel_irr : ∀ a : PFloat, pfMinRel a a = false := by
  intro a; cases a <;> simp [pfMinRel]

theorem pfMinRel_trans : ∀ a b c : PFloat,
    pfMinRel a b = true → pfMinRel b c = true → pfMinRel a c = true := by
  intro a b c hab hbc
  cases a <;> cases b <;> cases c <;> simp [pfMinRel] at *
  exact lt_trans hbc hab

theorem mem_keys_dictInsert {α : Type} (d : List (String × α)) (k t : String)
    (v : α) :
    t ∈ (dictInsert d k v).map Prod.fst ↔ t ∈ d.map Prod.fst ∨ t = k := by
  unfold dictInsert
  by_cases h : d.any (fun p => p.1 = k) = true
  · rw [if_pos h]
    have hkeys : (d.map (fun p => if p.1 = k then (k, v) else p)).map Prod.fst
        = d.map Prod.fst := by
      rw [List.map_map]
      apply List.map_congr_left
      intro p hp
      by_cases hpk : p.1 = k
      · simp [hpk]
      · simp [hpk]
    rw [hkeys]
    constructor
    · exact Or.inl
    · rintro (ht | rfl)
      · exact ht
      · simp only [List.any_eq_true, decide_eq_true_eq] at h
        obtain ⟨p, hp, hpk⟩ := h
        exact List.mem_map.mpr ⟨p, hp, hpk⟩
  · rw [if_neg h]
    simp [List.map_append]

theorem mem_keys_buildLoop {α : Type} (resolve : String → Option α) :
    ∀ (ts : List String) (d : List (String × α)) (t : String),
      t ∈ (ts.foldl (fun d u => match resolve u with
            | some v => dictInsert d u v
            | none => d) d).map Prod.fst ↔
        t ∈ d.map Prod.fst ∨ (t ∈ ts ∧ (resolve t).isSome) := by
  intro ts
  induction ts with
  | nil => intro d t; simp
  | cons u ts ih =>
      intro d t
      simp only [List.foldl_cons]
      cases hu : resolve u with
      | none =>
          simp only [hu]
          rw [ih]
          constructor
          · rintro (hd | ⟨hts, hS⟩)
            · exact Or.inl hd
            · exact Or.inr ⟨List.mem_cons_of_mem _ hts, hS⟩
          · rintro (hd | ⟨hut, hS⟩)
            · exact Or.inl hd
            · rcases List.mem_cons.mp hut with rfl | hts
              · rw [hu] at hS; simp at hS
              · exact Or.inr ⟨hts, hS⟩
      | some v =>
          simp only [hu]
          rw [ih, mem_keys_dictInsert]
          constructor
          · rintro ((hd | rfl) | ⟨hts, hS⟩)
            · exact Or.inl hd
            · exact Or.inr ⟨List.mem_cons_self _ _, by rw [hu]; rfl⟩
            · exact Or.inr ⟨List.mem_cons_of_mem _ hts, hS⟩
          · rintro (hd | ⟨hut, hS⟩)
            · exact Or.inl (Or.inl hd)
            · rcases List.mem_cons.mp hut with rfl | hts
              · exact Or.inl (Or.inr rfl)
              · exact Or.inr ⟨hts, hS⟩

/-- A ticker appears in a comparator dictionary exactly when it is in
the input list and its resolver produced a value. -/
theorem mem_keys_buildDict {α : Type} (tickers : List String)
    (resolve : String → Option α) (t : String) :
    t ∈ (buildDict tickers resolve).map Prod.fst ↔
      t ∈ tickers ∧ (resolve t).isSome := by
  unfold buildDict
  rw [mem_keys_buildLoop]
  simp

theorem buildLoop_const {α : Type} (resolve : String → Option α) :
    ∀ (ts : List String) (d : List (String × α)),
      (∀ t ∈ ts, resolve t = none) →
      ts.foldl (fun d u => match resolve u with
        | some v => dictInsert d u v
        | none => d) d = d := by
  intro ts
  induction ts with
  | nil => intro d _; rfl
  | cons u ts ih =>
      intro d hall
      simp only [List.foldl_cons, hall u (List.mem_cons_self u ts)]
      exact ih d (fun t ht => hall t (List.mem_cons_of_mem _ ht))

/-- When every resolver call fails the comparator dictionary is empty. -/
theorem buildDict_eq_nil {α : Type} (tickers : List String)
    (resolve : String → Option α) (hall : ∀ t ∈ tickers, resolve t = none) :
    buildDict tickers resolve = [] :=
  buildLoop_const resolve tickers [] hall

theorem optTraverse_map {α β γ : Type} (g : α → β) (f : β → Option γ)
    (h : α → γ) (hfg : ∀ a, f (g a) = some (h a)) :
    ∀ l : List α, optTraverse f (l.map g) = some (l.map h) := by
  intro l
  induction l with
  | nil => rfl
  | cons a as ih => simp [optTraverse, hfg a, ih]

theorem pctChanges_length (closes : List ℚ) :
    (pctChanges closes).length = closes.length - 1 := by
  unfold pctChanges
  rw [List.length_map, List.length_zip, List.length_tail]
  omega

theorem compare_returns_inv (env : Env) (tks : List String) (p : String)
    (b : String) (bv : ℚ) (all : List (String × ℚ))
    (h : compare_returns env tks p = ReturnsCmp.ranking b bv all) :
    all = buildDict tks (fun t => get_return (env.series t p)) ∧
      pyPick qMaxRel all = some (b, bv) := by
  simp only [compare_returns] at h
  cases hp : pyPick qMaxRel (buildDict tks (fun t => get_return (env.series t p))) with
  | none => rw [hp] at h; exact absurd h (by simp)
  | some bp =>
      rw [hp] at h
      simp only [ReturnsCmp.ranking.injEq] at h
      obtain ⟨hb, hbv, hall⟩ := h
      subst hb; subst hbv; subst hall
      exact ⟨rfl, by rw [hp]⟩

theorem compare_volatility_inv (env : Env) (tks : List String) (p : String)
    (lk : String) (lv : PFloat) (mk : String) (mv : PFloat)
    (all : List (String × PFloat))
    (h : compare_volatility env tks p = VolCmp.ranking lk lv mk mv all) :
    all = buildDict tks (fun t => get_volatility (env.series t p)) ∧
      pyPick pfMinRel all = some (lk, lv) ∧
      pyPick pfMaxRel all = some (mk, mv) := by
  simp only [compare_volatility] at h
  cases h1 : pyPick pfMinRel (buildDict tks (fun t => get_volatility (env.series t p))) with
  | none => rw [h1] at h; exact absurd h (by simp)
  | some lp =>
      cases h2 : pyPick pfMaxRel (buildDict tks (fun t => get_volatility (env.series t p))) with
      | none => rw [h1, h2] at h; exact absurd h (by simp)
      | some mp =>
          rw [h1, h2] at h
          simp only [VolCmp.ranking.injEq] at h
          obtain ⟨ha, hb, hc, hd, hall⟩ := h
          subst ha; subst hb; subst hc; subst hd; subst hall
          exact ⟨rfl, by rw [h1], by rw [h2]⟩

theorem compare_max_min_inv (env : Env) (tks : List String) (p : String)
    (hp lp : String × ℚ) (all : List (String × (ℚ × ℚ)))
    (h : compare_max_min env tks p = MaxMinCmp.result hp lp all) :
    all = buildDict tks (fun t => get_max_min (env.series t p)) ∧
      pyPick qMaxRel (all.map (fun q => (q.1, q.2.1))) = some hp ∧
      pyPick qMinRel (all.map (fun q => (q.1, q.2.2))) = some lp := by
  simp only [compare_max_min] at h
  cases h1 : pyPick qMaxRel ((buildDict tks (fun t => get_max_min (env.series t p))).map
      (fun q => (q.1, q.2.1))) with
  | none => rw [h1] at h; exact absurd h (by simp)
  | some hx =>
      cases h2 : pyPick qMinRel ((buildDict tks (fun t => get_max_min (env.series t p))).map
          (fun q => (q.1, q.2.2))) with
      | none => rw [h1, h2] at h; exact absurd h (by simp)
      | some lx =>
          rw [h1, h2] at h
          simp only [MaxMinCmp.result.injEq] at h
          obtain ⟨ha, hb, hall⟩ := h
          subst ha; subst hb; subst hall
          exact ⟨rfl, by rw [h1], by rw [h2]⟩

theorem compare_fundamentals_inv (env : Env) (tks : List String)
    (data : List (String × Fundamentals)) (analysis : FundAnalysis)
    (h : compare_fundamentals env tks = FundCmp.result data analysis) :
    data = buildDict tks (fun t => get_fundamentals (env.fundamentals t)) ∧
      analysis.largest_market_cap
          = pyPick qMaxRel (subDictAll Fundamentals.marketCap data) ∧
      analysis.best_pe_ratio
          = pyPick qMinRel (subDictPos Fundamentals.peRatio data) ∧
      analysis.highest_dividend_yield
          = pyPick qMaxRel (subDictPos Fundamentals.dividendYield data) ∧
      analysis.lowest_debt_to_equity
          = pyPick qMinRel (subDictPos Fundamentals.debtToEquity data) := by
  simp only [compare_fundamentals] at h
  cases hD : buildDict tks (fun t => get_fundamentals (env.fundamentals t)) with
  | nil => rw [hD] at h; exact absurd h (by simp)
  | cons a as =>
      rw [hD] at h
      simp only [FundCmp.result.injEq] at h
      obtain ⟨hdata, hana⟩ := h
      subst hdata
      rw [← hana]
      exact ⟨rfl, rfl, rfl, rfl, rfl⟩

theorem mem_subDictAll (attr : Fundamentals → Option ℚ)
    (data : List (String × Fundamentals)) (t : String) (v : ℚ) :
    (t, v) ∈ subDictAll attr data ↔
      ∃ f, (t, f) ∈ data ∧ attr f = some v := by
  unfold subDictAll
  rw [List.mem_filterMap]
  constructor
  · rintro ⟨⟨a, f⟩, htd, heq⟩
    cases ha : attr f with
    | none => rw [ha] at heq; exact absurd heq (by simp)
    | some w =>
        rw [ha] at heq
        simp only [Option.map_some', Option.some.injEq, Prod.mk.injEq] at heq
        obtain ⟨h1, h2⟩ := heq
        subst h1; subst h2
        exact ⟨f, htd, ha⟩
  · rintro ⟨f, htd, ha⟩
    exact ⟨(t, f), htd, by simp [ha]⟩

theorem mem_subDictPos (attr : Fundamentals → Option ℚ)
    (data : List (String × Fundamentals)) (t : String) (v : ℚ) :
    (t, v) ∈ subDictPos attr data ↔
      ∃ f, (t, f) ∈ data ∧ attr f = some v ∧ 0 < v := by
  unfold subDictPos
  rw [List.mem_filterMap]
  constructor
  · rintro ⟨⟨a, f⟩, htd, heq⟩
    cases ha : attr f with
    | none => rw [ha] at heq; exact absurd heq (by simp)
    | some w =>
        rw [ha] at heq
        change (if 0 < w then some (a, w) else none) = some (t, v) at heq
        by_cases hw : 0 < w
        · rw [if_pos hw] at heq
          simp only [Option.some.injEq, Prod.mk.injEq] at heq
          obtain ⟨h1, h2⟩ := heq
          subst h1; subst h2
          exact ⟨f, htd, ha, hw⟩
        · rw [if_neg hw] at heq; exact absurd heq (by simp)
  · rintro ⟨f, htd, ha, hv⟩
    exact ⟨(t, f), htd, by simp [ha, hv]⟩

theorem subDictPos_eq_nil (attr : Fundamentals → Option ℚ)
    (data : List (String × Fundamentals)) :
    subDictPos attr data = [] ↔
      ∀ p ∈ data, ∀ v, attr p.2 = some v → v ≤ 0 := by
  unfold subDictPos
  rw [List.filterMap_eq_nil_iff]
  constructor
  · intro h p hp v hv
    have hpv := h p hp
    rw [hv] at hpv
    change (if 0 < v then some (p.1, v) else none) = none at hpv
    by_contra hpos
    push_neg at hpos
    rw [if_pos hpos] at hpv
    exact absurd hpv (by simp)
  · intro h p hp
    cases ha : attr p.2 with
    | none => rfl
    | some v =>
        have hle := h p hp v ha
        change (if 0 < v then some (p.1, v) else none) = none
        rw [if_neg (by exact not_lt.mpr hle)]

theorem subDictAll_eq_nil (attr : Fundamentals → Option ℚ)
    (data : List (String × Fundamentals)) :
    subDictAll attr data = [] ↔ ∀ p ∈ data, attr p.2 = none := by
  unfold subDictAll
  rw [List.filterMap_eq_nil_iff]
  constructor
  · intro h p hp
    have hpv := h p hp
    cases ha : attr p.2 with
    | none => rfl
    | some v => rw [ha] at hpv; exact absurd hpv (by simp)
  · intro h p hp
    rw [h p hp]; rfl

theorem roundHE_zero {α : Type} [LinearOrderedField α] [FloorRing α]
    [DecidableRel ((· < ·) : α → α → Prop)] : roundHE (0 : α) = 0 := by
  have h := roundHE_intCast (α := α) 0
  simpa using h

theorem round2_zero {α : Type} [LinearOrderedField α] [FloorRing α]
    [DecidableRel ((· < ·) : α → α → Prop)] : round2 (0 : α) = 0 := by
  unfold round2
  rw [zero_mul, roundHE_zero]
  simp

/-- C9 (confirmed): the four resolvers absorb failures locally: a
failed fetch and an empty series both map to the unavailable value.
In the embedding every resolver is a total function into Option, which
is exactly the broad try/except of the source: no exception escapes a
resolver. -/
theorem C9_resolvers_absorb_failures :
    get_return none = none ∧ get_return (some []) = none ∧
    get_volatility none = none ∧ get_volatility (some []) = none ∧
    get_max_min none = none ∧ get_max_min (some []) = none ∧
    get_fundamentals none = none :=
  ⟨rfl, rfl, rfl, rfl, rfl, rfl, rfl⟩

/-- C10 (confirmed): a one-point series with a nonzero closing price
resolves to a return of 0.0 — first and last chronological entry
coincide — while the empty series resolves to unavailable. -/
theorem C10_one_point_return (x : ℚ) (_hx : x ≠ 0) :
    get_return (some [x]) = some 0 ∧ get_return (some ([] : List ℚ)) = none := by
  refine ⟨?_, rfl⟩
  have h1 : get_return (some [x]) = some (round2 ((x - x) / x * 100)) := rfl
  rw [h1, sub_self, zero_div, zero_mul, round2_zero]

/-- Witness for C10 at the closing price 100. -/
theorem C10_one_point_return_witness :
    get_return (some [(100 : ℚ)]) = some 0 ∧
      get_return (some ([] : List ℚ)) = none :=
  C10_one_point_return 100 (by norm_num)

/-- C2 counterexample: the claim says a series with fewer than 2 points
resolves to unavailable (null); on a one-point series the source
instead returns the float NaN (pandas yields a NaN standard deviation,
which survives the arithmetic and the rounding), which is not None. -/
theorem C2_counterexample :
    get_volatility (some [100]) = some PFloat.nan ∧
      get_volatility (some [100]) ≠ none := by
  have h : get_volatility (some [100]) = some PFloat.nan := rfl
  exact ⟨h, by rw [h]; exact Option.some_ne_none _⟩

/-- C2 (corrected): get_volatility is unavailable exactly on a failed
fetch or an empty series; a nonempty series with fewer than three
points (fewer than two usable changes) yields the float NaN, not null;
a series of three or more points yields the sample standard deviation
of the day-over-day percentage changes, annualised by the square root
of 252, as a percentage rounded to two decimals. -/
theorem C2_volatility :
    get_volatility none = none ∧
    get_volatility (some []) = none ∧
    (∀ closes : List ℚ, closes ≠ [] → closes.length < 3 →
        get_volatility (some closes) = some PFloat.nan) ∧
    (∀ closes : List ℚ, 3 ≤ closes.length →
        get_volatility (some closes)
          = some (PFloat.val (round2 (Real.sqrt ((sampleVar (pctChanges closes) : ℚ) : ℝ)
              * Real.sqrt 252 * 100)))) := by
  refine ⟨rfl, rfl, ?_, ?_⟩
  · intro closes h1 h2
    obtain ⟨c, rest, rfl⟩ : ∃ c rest, closes = c :: rest := by
      cases closes with
      | nil => exact absurd rfl h1
      | cons a as => exact ⟨a, as, rfl⟩
    have hstd : pandasStd (pctChanges (c :: rest)) = PFloat.nan := by
      unfold pandasStd
      rw [if_pos (by rw [pctChanges_length]; omega)]
    show (match pandasStd (pctChanges (c :: rest)) with
      | PFloat.nan => some PFloat.nan
      | PFloat.val s => some (PFloat.val (round2 (s * Real.sqrt 252 * 100))))
        = some PFloat.nan
    rw [hstd]
  · intro closes h3
    obtain ⟨c, rest, rfl⟩ : ∃ c rest, closes = c :: rest := by
      cases closes with
      | nil => simp at h3
      | cons a as => exact ⟨a, as, rfl⟩
    have hstd : pandasStd (pctChanges (c :: rest))
        = PFloat.val (Real.sqrt ((sampleVar (pctChanges (c :: rest)) : ℚ) : ℝ)) := by
      unfold pandasStd
      rw [if_neg (by rw [pctChanges_length]; omega)]
    show (match pandasStd (pctChanges (c :: rest)) with
      | PFloat.nan => some PFloat.nan
      | PFloat.val s => some (PFloat.val (round2 (s * Real.sqrt 252 * 100))))
        = some (PFloat.val (round2 (Real.sqrt ((sampleVar (pctChanges (c :: rest)) : ℚ) : ℝ)
            * Real.sqrt 252 * 100)))
    rw [hstd]

/-- Witness for C2 at a two-point and at a three-point series. -/
theorem C2_volatility_witness :
    get_volatility (some [100, 110]) = some PFloat.nan ∧
      get_volatility (some [100, 110, 105])
        = some (PFloat.val (round2 (Real.sqrt ((sampleVar (pctChanges [100, 110, 105]) : ℚ) : ℝ)
            * Real.sqrt 252 * 100))) :=
  ⟨C2_volatility.2.2.1 [100, 110] (by simp) (by decide),
   C2_volatility.2.2.2 [100, 110, 105] (by decide)⟩

/-- C3 counterexample: the claim says an attribute present in the
fetched record carries its value into the result; a market
capitalisation that is present with value 0 is falsy in Python, so the
source maps it to null instead. -/
theorem C3_counterexample :
    (get_fundamentals (some
        { longName := none, marketCap := some 0, trailingPE := none,
          trailingEps := none, dividendYield := none,
          debtToEquity := none })).map Fundamentals.marketCap = some none ∧
      (some none : Option (Option ℚ)) ≠ some (some 0) := by
  exact ⟨by simp [get_fundamentals, numField], by simp⟩

/-- C3 (corrected): the whole record is null exactly when the fetch
fails; longName passes through unchanged; each numeric attribute
carries its value when it is present and nonzero, while a missing
attribute and a present-but-zero (falsy) attribute both become null. -/
theorem C3_fundamentals_truthiness :
    get_fundamentals none = none ∧
    (∀ info : YfInfo, get_fundamentals (some info)
        = some { longName := info.longName
                 marketCap := numField info.marketCap
                 peRatio := numField info.trailingPE
                 eps := numField info.trailingEps
                 dividendYield := numField info.dividendYield
                 debtToEquity := numField info.debtToEquity }) ∧
    (∀ v : Option ℚ, numField v = none ↔ v = none ∨ v = some 0) ∧
    (∀ (v : Option ℚ) (q : ℚ), q ≠ 0 → v = some q → numField v = some q) := by
  refine ⟨rfl, fun info => rfl, ?_, ?_⟩
  · intro v
    cases v with
    | none => simp [numField]
    | some x =>
        by_cases hx : x = 0
        · subst hx; simp [numField]
        · simp [numField, hx]
  · intro v q hq hv
    subst hv
    simp [numField, hq]

/-- Witness for C3: a present nonzero attribute passes through. -/
theorem C3_fundamentals_truthiness_witness :
    numField (some 5) = some 5 :=
  C3_fundamentals_truthiness.2.2.2 (some 5) 5 (by norm_num) rfl

/-- C4 counterexample: the claim says every numeric output of a
resolver is rounded to two decimals; get_fundamentals forwards a
price/earnings ratio of 0.125 unrounded, and 0.125 is not a fixed
point of two-decimal rounding. -/
theorem C4_counterexample :
    (get_fundamentals (some
        { longName := none, marketCap := none, trailingPE := some (1 / 8),
          trailingEps := none, dividendYield := none,
          debtToEquity := none })).map Fundamentals.peRatio
      = some (some (1 / 8)) ∧ round2 ((1 : ℚ) / 8) ≠ (1 : ℚ) / 8 := by
  exact ⟨by norm_num [get_fundamentals, numField], by norm_num [round2, roundHE]⟩

/-- C4 (corrected): the three price resolvers emit only two-decimal
values (fixed points of round2), but get_fundamentals forwards every
present nonzero attribute exactly as fetched, without rounding. -/
theorem C4_rounding :
    (∀ f q, get_return f = some q → round2 q = q) ∧
    (∀ f mm, get_max_min f = some mm → round2 mm.1 = mm.1 ∧ round2 mm.2 = mm.2) ∧
    (∀ f x, get_volatility f = some (PFloat.val x) → round2 x = x) ∧
    (∀ (info : YfInfo) (q : ℚ), info.trailingPE = some q → q ≠ 0 →
        (get_fundamentals (some info)).map Fundamentals.peRatio = some (some q)) := by
  refine ⟨?_, ?_, ?_, ?_⟩
  · intro f q h
    match f with
    | none => exact absurd h (by simp [get_return])
    | some [] => exact absurd h (by simp [get_return])
    | some (c :: rest) =>
        simp only [get_return, Option.some.injEq] at h
        rw [← h, round2_round2]
  · intro f mm h
    match f with
    | none => exact absurd h (by simp [get_max_min])
    | some [] => exact absurd h (by simp [get_max_min])
    | some (c :: rest) =>
        simp only [get_max_min, Option.some.injEq] at h
        rw [← h]
        exact ⟨round2_round2 _, round2_round2 _⟩
  · intro f x h
    match f with
    | none => exact absurd h (by simp [get_volatility])
    | some [] => exact absurd h (by simp [get_volatility])
    | some (c :: rest) =>
        have hred : get_volatility (some (c :: rest))
            = match pandasStd (pctChanges (c :: rest)) with
              | PFloat.nan => some PFloat.nan
              | PFloat.val s => some (PFloat.val (round2 (s * Real.sqrt 252 * 100))) := rfl
        rw [hred] at h
        cases hstd : pandasStd (pctChanges (c :: rest)) with
        | nan => rw [hstd] at h; simp at h
        | val s =>
            rw [hstd] at h
            simp at h
            rw [← h, round2_round2]
  · intro info q hpe hq
    simp [get_fundamentals, numField, hpe, hq]

/-- Witness for C4: the return of the series 100, 110 is 10, which is
already a two-decimal value. -/
theorem C4_rounding_witness : round2 ((10 : ℚ)) = 10 :=
  C4_rounding.1 (some [100, 110]) 10
    (by norm_num [get_return, round2, roundHE, List.getLastD])

def tickA : String := "A"
def tickB : String := "B"
def ytd : String := "ytd"

/-- An environment in which every fetch fails. -/
def envNone : Env := { series := fun _ _ => none, fundamentals := fun _ => none }

/-- C5 (confirmed): every comparator drops tickers whose metric is
unavailable from its dictionary — they are excluded from the ranking
but the comparator still returns — and when every ticker is unavailable
it returns the explicit no-data error result instead of a ranking. -/
theorem C5_comparators_missing_data :
    (∀ env tks p, (∀ t ∈ tks, get_return (env.series t p) = none) →
        compare_returns env tks p = ReturnsCmp.noData noReturnsDataMsg) ∧
    (∀ env tks p b bv all t,
        compare_returns env tks p = ReturnsCmp.ranking b bv all →
        t ∈ tks → get_return (env.series t p) = none → t ∉ all.map Prod.fst) ∧
    (∀ env tks p, (∀ t ∈ tks, get_volatility (env.series t p) = none) →
        compare_volatility env tks p = VolCmp.noData noVolDataMsg) ∧
    (∀ env tks p lk lv mk mv all t,
        compare_volatility env tks p = VolCmp.ranking lk lv mk mv all →
        t ∈ tks → get_volatility (env.series t p) = none → t ∉ all.map Prod.fst) ∧
    (∀ env tks p, (∀ t ∈ tks, get_max_min (env.series t p) = none) →
        compare_max_min env tks p = MaxMinCmp.noData noMaxMinDataMsg) ∧
    (∀ env tks p hp lp all t,
        compare_max_min env tks p = MaxMinCmp.result hp lp all →
        t ∈ tks → get_max_min (env.series t p) = none → t ∉ all.map Prod.fst) ∧
    (∀ env tks, (∀ t ∈ tks, get_fundamentals (env.fundamentals t) = none) →
        compare_fundamentals env tks = FundCmp.noData noFundDataMsg) ∧
    (∀ env tks data analysis t,
        compare_fundamentals env tks = FundCmp.result data analysis →
        t ∈ tks → get_fundamentals (env.fundamentals t) = none →
        t ∉ data.map Prod.fst) := by
  refine ⟨?_, ?_, ?_, ?_, ?_, ?_, ?_, ?_⟩
  · intro env tks p hall
    have hD : buildDict tks (fun t => get_return (env.series t p)) = [] :=
      buildDict_eq_nil _ _ hall
    simp [compare_returns, hD, pyPick]
  · intro env tks p b bv all t hrank _ hnone
    obtain ⟨hall, _⟩ := compare_returns_inv env tks p b bv all hrank
    rw [hall]
    intro hmem
    rw [mem_keys_buildDict] at hmem
    rw [hnone] at hmem
    exact absurd hmem.2 (by simp)
  · intro env tks p hall
    have hD : buildDict tks (fun t => get_volatility (env.series t p)) = [] :=
      buildDict_eq_nil _ _ hall
    simp [compare_volatility, hD, pyPick]
  · intro env tks p lk lv mk mv all t hrank _ hnone
    obtain ⟨hall, _, _⟩ := compare_volatility_inv env tks p lk lv mk mv all hrank
    rw [hall]
    intro hmem
    rw [mem_keys_buildDict] at hmem
    rw [hnone] at hmem
    exact absurd hmem.2 (by simp)
  · intro env tks p hall
    have hD : buildDict tks (fun t => get_max_min (env.series t p)) = [] :=
      buildDict_eq_nil _ _ hall
    simp [compare_max_min, hD, pyPick]
  · intro env tks p hp lp all t hrank _ hnone
    obtain ⟨hall, _, _⟩ := compare_max_min_inv env tks p hp lp all hrank
    rw [hall]
    intro hmem
    rw [mem_keys_buildDict] at hmem
    rw [hnone] at hmem
    exact absurd hmem.2 (by simp)
  · intro env tks hall
    have hD : buildDict tks (fun t => get_fundamentals (env.fundamentals t)) = [] :=
      buildDict_eq_nil _ _ hall
    simp [compare_fundamentals, hD]
  · intro env tks data analysis t hres _ hnone
    obtain ⟨hdata, _, _, _, _⟩ := compare_fundamentals_inv env tks data analysis hres
    rw [hdata]
    intro hmem
    rw [mem_keys_buildDict] at hmem
    rw [hnone] at hmem
    exact absurd hmem.2 (by simp)

/-- Witness for C5: with every fetch failing, compare_returns over two
tickers is the no-data result. -/
theorem C5_comparators_missing_data_witness :
    compare_returns envNone [tickA, tickB] ytd
      = ReturnsCmp.noData noReturnsDataMsg :=
  C5_comparators_missing_data.1 envNone [tickA, tickB] ytd (fun _ _ => rfl)

theorem dictInsert_keys_of_mem {α : Type} (d : List (String × α)) (k : String)
    (v : α) (h : d.any (fun p => p.1 = k) = true) :
    (dictInsert d k v).map Prod.fst = d.map Prod.fst := by
  unfold dictInsert
  rw [if_pos h, List.map_map]
  apply List.map_congr_left
  intro p hp
  by_cases hpk : p.1 = k
  · simp [hpk]
  · simp [hpk]

theorem dictInsert_keys_of_not_mem {α : Type} (d : List (String × α)) (k : String)
    (v : α) (h : d.any (fun p => p.1 = k) = false) :
    (dictInsert d k v).map Prod.fst = d.map Prod.fst ++ [k] := by
  unfold dictInsert
  rw [if_neg (by simp [h]), List.map_append]
  rfl

theorem dictInsert_keys_nodup {α : Type} (d : List (String × α)) (k : String)
    (v : α) (h : (d.map Prod.fst).Nodup) :
    ((dictInsert d k v).map Prod.fst).Nodup := by
  cases hany : d.any (fun p => p.1 = k) with
  | true => rw [dictInsert_keys_of_mem d k v hany]; exact h
  | false =>
      rw [dictInsert_keys_of_not_mem d k v hany]
      have hk : k ∉ d.map Prod.fst := by
        intro hmem
        rw [List.mem_map] at hmem
        obtain ⟨p, hp, hpk⟩ := hmem
        have hT : d.any (fun p => p.1 = k) = true :=
          List.any_eq_true.mpr ⟨p, hp, by simp [hpk]⟩
        rw [hany] at hT; exact absurd hT (by simp)
      rw [List.nodup_append]
      exact ⟨h, List.nodup_singleton k, by
        intro a ha hb
        rw [List.mem_singleton] at hb
        rw [hb] at ha
        exact hk ha⟩

theorem buildLoop_keys_nodup {α : Type} (resolve : String → Option α) :
    ∀ (ts : List String) (d : List (String × α)),
      (d.map Prod.fst).Nodup →
      ((ts.foldl (fun d u => match resolve u with
        | some v => dictInsert d u v
        | none => d) d).map Prod.fst).Nodup := by
  intro ts
  induction ts with
  | nil => intro d h; exact h
  | cons u ts ih =>
      intro d h
      simp only [List.foldl_cons]
      cases hu : resolve u with
      | none => simp only [hu]; exact ih d h
      | some v => simp only [hu]; exact ih _ (dictInsert_keys_nodup d u v h)

/-- The keys of a comparator dictionary are distinct — it is a Python
dictionary. -/
theorem buildDict_keys_nodup {α : Type} (tickers : List String)
    (resolve : String → Option α) :
    ((buildDict tickers resolve).map Prod.fst).Nodup :=
  buildLoop_keys_nodup resolve tickers [] (by simp)

theorem keys_nodup_val_unique {α : Type} :
    ∀ l : List (String × α), (l.map Prod.fst).Nodup →
      ∀ t a b, (t, a) ∈ l → (t, b) ∈ l → a = b := by
  intro l
  induction l with
  | nil => intro _ t a b ha; simp at ha
  | cons p ps ih =>
      intro h t a b ha hb
      rw [List.map_cons, List.nodup_cons] at h
      obtain ⟨hp, hps⟩ := h
      rcases List.mem_cons.mp ha with ha1 | ha2
      · rcases List.mem_cons.mp hb with hb1 | hb2
        · have heq : (t, a) = ((t, b) : String × α) := ha1.trans hb1.symm
          exact (Prod.ext_iff.mp heq).2
        · exfalso
          have ht : t ∈ ps.map Prod.fst := List.mem_map.mpr ⟨(t, b), hb2, rfl⟩
          rw [← ha1] at hp
          exact hp ht
      · rcases List.mem_cons.mp hb with hb1 | hb2
        · exfalso
          have ht : t ∈ ps.map Prod.fst := List.mem_map.mpr ⟨(t, a), ha2, rfl⟩
          rw [← hb1] at hp
          exact hp ht
        · exact ih hps t a b ha2 hb2

/-- C6 (confirmed): the four sub-comparisons of compare_fundamentals
are independent: a ticker joins the market-cap dictionary whenever its
market cap is present regardless of its other attributes, a ticker with
a missing or non-positive price/earnings ratio is excluded from the
price/earnings sub-comparison only, each sub-comparison is omitted
(field none) exactly when no ticker qualifies for it, and each present
winner carries a qualifying value from the data. -/
theorem C6_fundamentals_independence :
    ∀ env tks data analysis,
      compare_fundamentals env tks = FundCmp.result data analysis →
      (∀ t f m, (t, f) ∈ data → f.marketCap = some m →
          (t, m) ∈ subDictAll Fundamentals.marketCap data) ∧
      (∀ t f, (t, f) ∈ data →
          (f.peRatio = none ∨ ∀ v, f.peRatio = some v → v ≤ 0) →
          t ∉ (subDictPos Fundamentals.peRatio data).map Prod.fst) ∧
      (analysis.largest_market_cap = none ↔
          ∀ p ∈ data, p.2.marketCap = none) ∧
      (analysis.best_pe_ratio = none ↔
          ∀ p ∈ data, ∀ v, p.2.peRatio = some v → v ≤ 0) ∧
      (analysis.highest_dividend_yield = none ↔
          ∀ p ∈ data, ∀ v, p.2.dividendYield = some v → v ≤ 0) ∧
      (analysis.lowest_debt_to_equity = none ↔
          ∀ p ∈ data, ∀ v, p.2.debtToEquity = some v → v ≤ 0) ∧
      (∀ t v, analysis.best_pe_ratio = some (t, v) →
          ∃ f, (t, f) ∈ data ∧ f.peRatio = some v ∧ 0 < v) ∧
      (∀ t v, analysis.largest_market_cap = some (t, v) →
          ∃ f, (t, f) ∈ data ∧ f.marketCap = some v) := by
  intro env tks data analysis hres
  obtain ⟨hdata, hmc, hpe, hdy, hde⟩ :=
    compare_fundamentals_inv env tks data analysis hres
  have hnodup : (data.map Prod.fst).Nodup := by
    rw [hdata]; exact buildDict_keys_nodup _ _
  refine ⟨?_, ?_, ?_, ?_, ?_, ?_, ?_, ?_⟩
  · intro t f m htf hm
    exact (mem_subDictAll _ _ _ _).mpr ⟨f, htf, hm⟩
  · intro t f htf hdisq hmem
    rw [List.mem_map] at hmem
    obtain ⟨⟨t2, v⟩, hq, hqt⟩ := hmem
    have ht2 : t2 = t := hqt
    subst ht2
    obtain ⟨f2, hf2, hpe2, hpos⟩ := (mem_subDictPos _ _ _ _).mp hq
    have hff : f2 = f := keys_nodup_val_unique data hnodup t2 f2 f hf2 htf
    rw [hff] at hpe2
    rcases hdisq with hn | hle
    · rw [hn] at hpe2; exact absurd hpe2 (by simp)
    · exact absurd hpos (not_lt.mpr (hle v hpe2))
  · rw [hmc, pyPick_eq_none, subDictAll_eq_nil]
  · rw [hpe, pyPick_eq_none, subDictPos_eq_nil]
  · rw [hdy, pyPick_eq_none, subDictPos_eq_nil]
  · rw [hde, pyPick_eq_none, subDictPos_eq_nil]
  · intro t v hbest
    rw [hpe] at hbest
    obtain ⟨hmem, _, _⟩ :=
      pyPick_spec qMinRel qMinRel_irr qMinRel_trans _ _ hbest
    exact (mem_subDictPos _ _ _ _).mp hmem
  · intro t v hbest
    rw [hmc] at hbest
    obtain ⟨hmem, _, _⟩ :=
      pyPick_spec qMaxRel qMaxRel_irr qMaxRel_trans _ _ hbest
    exact (mem_subDictAll _ _ _ _).mp hmem

/-- A fundamentals record whose market cap is present and whose
price/earnings ratio is present but negative. -/
def infoW : YfInfo :=
  { longName := none, marketCap := some 50, trailingPE := some (-5),
    trailingEps := none, dividendYield := none, debtToEquity := none }

def fundW : Fundamentals :=
  { longName := none, marketCap := some 50, peRatio := some (-5),
    eps := none, dividendYield := none, debtToEquity := none }

def envW : Env := { series := fun _ _ => none, fundamentals := fun _ => some infoW }

/-- Witness for C6: the ticker with a negative price/earnings ratio
still joins the market-cap sub-comparison. -/
theorem C6_fundamentals_independence_witness :
    (tickA, (50 : ℚ)) ∈ subDictAll Fundamentals.marketCap [(tickA, fundW)] :=
  (C6_fundamentals_independence envW [tickA] [(tickA, fundW)]
      { largest_market_cap := some (tickA, 50), best_pe_ratio := none,
        highest_dividend_yield := none, lowest_debt_to_equity := none }
      (by norm_num [compare_fundamentals, buildDict, dictInsert,
        get_fundamentals, numField, subDictAll, subDictPos, pyPick, pyRun,
        qMaxRel, qMinRel, envW, infoW, fundW, List.filterMap_cons,
        List.filterMap_nil])).1
    tickA fundW 50 (List.mem_singleton.mpr rfl) rfl

theorem qMaxRel_false_iff (a b : ℚ) : qMaxRel a b = false ↔ b ≤ a := by
  simp [qMaxRel, not_lt]

theorem qMinRel_false_iff (a b : ℚ) : qMinRel a b = false ↔ a ≤ b := by
  simp [qMinRel, not_lt]

/-- C8 (confirmed): in every comparator the chosen winner of each
ranking is the first entry of the (insertion-ordered, hence
input-ordered) dictionary that carries the winning extremal value, and
no entry strictly beats it.  For volatility, where values are floats,
the no-entry-beats-it part is stated with the Python comparison itself,
which is never true on NaN. -/
theorem C8_tie_break_first_in_input :
    (∀ env tks p b bv all,
        compare_returns env tks p = ReturnsCmp.ranking b bv all →
        (b, bv) ∈ all ∧ (∀ q ∈ all, q.2 ≤ bv) ∧
          all.find? (fun q => q.2 = bv) = some (b, bv)) ∧
    (∀ env tks p lk lv mk mv all,
        compare_volatility env tks p = VolCmp.ranking lk lv mk mv all →
        ((lk, lv) ∈ all ∧ (∀ q ∈ all, pfMinRel lv q.2 = false) ∧
            all.find? (fun q => q.2 = lv) = some (lk, lv)) ∧
        ((mk, mv) ∈ all ∧ (∀ q ∈ all, pfMaxRel mv q.2 = false) ∧
            all.find? (fun q => q.2 = mv) = some (mk, mv))) ∧
    (∀ env tks p hp lp all,
        compare_max_min env tks p = MaxMinCmp.result hp lp all →
        (hp ∈ all.map (fun q => (q.1, q.2.1)) ∧ (∀ q ∈ all, q.2.1 ≤ hp.2) ∧
            (all.map (fun q => (q.1, q.2.1))).find? (fun q => q.2 = hp.2)
              = some hp) ∧
        (lp ∈ all.map (fun q => (q.1, q.2.2)) ∧ (∀ q ∈ all, lp.2 ≤ q.2.2) ∧
            (all.map (fun q => (q.1, q.2.2))).find? (fun q => q.2 = lp.2)
              = some lp)) ∧
    (∀ env tks data analysis,
        compare_fundamentals env tks = FundCmp.result data analysis →
        (∀ t v, analysis.largest_market_cap = some (t, v) →
            (∀ q ∈ subDictAll Fundamentals.marketCap data, q.2 ≤ v) ∧
            (subDictAll Fundamentals.marketCap data).find? (fun q => q.2 = v)
              = some (t, v)) ∧
        (∀ t v, analysis.best_pe_ratio = some (t, v) →
            (∀ q ∈ subDictPos Fundamentals.peRatio data, v ≤ q.2) ∧
            (subDictPos Fundamentals.peRatio data).find? (fun q => q.2 = v)
              = some (t, v)) ∧
        (∀ t v, analysis.highest_dividend_yield = some (t, v) →
            (∀ q ∈ subDictPos Fundamentals.dividendYield data, q.2 ≤ v) ∧
            (subDictPos Fundamentals.dividendYield data).find? (fun q => q.2 = v)
              = some (t, v)) ∧
        (∀ t v, analysis.lowest_debt_to_equity = some (t, v) →
            (∀ q ∈ subDictPos Fundamentals.debtToEquity data, v ≤ q.2) ∧
            (subDictPos Fundamentals.debtToEquity data).find? (fun q => q.2 = v)
              = some (t, v))) := by
  refine ⟨?_, ?_, ?_, ?_⟩
  · intro env tks p b bv all hrank
    obtain ⟨_, hpick⟩ := compare_returns_inv env tks p b bv all hrank
    obtain ⟨hmem, hbeat, hfirst⟩ :=
      pyPick_spec qMaxRel qMaxRel_irr qMaxRel_trans all (b, bv) hpick
    exact ⟨hmem, fun q hq => (qMaxRel_false_iff _ _).mp (hbeat q hq), hfirst⟩
  · intro env tks p lk lv mk mv all hrank
    obtain ⟨_, hmin, hmax⟩ :=
      compare_volatility_inv env tks p lk lv mk mv all hrank
    obtain ⟨hmem1, hbeat1, hfirst1⟩ :=
      pyPick_spec pfMinRel pfMinRel_irr pfMinRel_trans all (lk, lv) hmin
    obtain ⟨hmem2, hbeat2, hfirst2⟩ :=
      pyPick_spec pfMaxRel pfMaxRel_irr pfMaxRel_trans all (mk, mv) hmax
    exact ⟨⟨hmem1, hbeat1, hfirst1⟩, ⟨hmem2, hbeat2, hfirst2⟩⟩
  · intro env tks p hp lp all hres
    obtain ⟨_, hmaxes, hmins⟩ := compare_max_min_inv env tks p hp lp all hres
    obtain ⟨hmem1, hbeat1, hfirst1⟩ :=
      pyPick_spec qMaxRel qMaxRel_irr qMaxRel_trans _ hp hmaxes
    obtain ⟨hmem2, hbeat2, hfirst2⟩ :=
      pyPick_spec qMinRel qMinRel_irr qMinRel_trans _ lp hmins
    refine ⟨⟨hmem1, ?_, hfirst1⟩, ⟨hmem2, ?_, hfirst2⟩⟩
    · intro q hq
      have hq2 : (q.1, q.2.1) ∈ all.map (fun q => (q.1, q.2.1)) :=
        List.mem_map.mpr ⟨q, hq, rfl⟩
      exact (qMaxRel_false_iff _ _).mp (hbeat1 _ hq2)
    · intro q hq
      have hq2 : (q.1, q.2.2) ∈ all.map (fun q => (q.1, q.2.2)) :=
        List.mem_map.mpr ⟨q, hq, rfl⟩
      exact (qMinRel_false_iff _ _).mp (hbeat2 _ hq2)
  · intro env tks data analysis hres
    obtain ⟨_, hmc, hpe, hdy, hde⟩ :=
      compare_fundamentals_inv env tks data analysis hres
    refine ⟨?_, ?_, ?_, ?_⟩
    · intro t v hbest
      rw [hmc] at hbest
      obtain ⟨_, hbeat, hfirst⟩ :=
        pyPick_spec qMaxRel qMaxRel_irr qMaxRel_trans _ _ hbest
      exact ⟨fun q hq => (qMaxRel_false_iff _ _).mp (hbeat q hq), hfirst⟩
    · intro t v hbest
      rw [hpe] at hbest
      obtain ⟨_, hbeat, hfirst⟩ :=
        pyPick_spec qMinRel qMinRel_irr qMinRel_trans _ _ hbest
      exact ⟨fun q hq => (qMinRel_false_iff _ _).mp (hbeat q hq), hfirst⟩
    · intro t v hbest
      rw [hdy] at hbest
      obtain ⟨_, hbeat, hfirst⟩ :=
        pyPick_spec qMaxRel qMaxRel_irr qMaxRel_trans _ _ hbest
      exact ⟨fun q hq => (qMaxRel_false_iff _ _).mp (hbeat q hq), hfirst⟩
    · intro t v hbest
      rw [hde] at hbest
      obtain ⟨_, hbeat, hfirst⟩ :=
        pyPick_spec qMinRel qMinRel_irr qMinRel_trans _ _ hbest
      exact ⟨fun q hq => (qMinRel_false_iff _ _).mp (hbeat q hq), hfirst⟩

/-- An environment in which the tickers A and B both have a return of
exactly 10 percent over any period. -/
def envTie : Env :=
  { series := fun t _ => if t = tickA then some [100, 110] else some [50, 55],
    fundamentals := fun _ => none }

/-- Witness for C8: with A and B tied at a return of 10, the winner is
A, the first ticker of the input list. -/
theorem C8_tie_break_first_in_input_witness :
    (tickA, (10 : ℚ)) ∈ [(tickA, (10 : ℚ)), (tickB, 10)] ∧
      (∀ q ∈ [(tickA, (10 : ℚ)), (tickB, 10)], q.2 ≤ 10) ∧
      [(tickA, (10 : ℚ)), (tickB, 10)].find? (fun q => q.2 = 10)
        = some (tickA, 10) :=
  C8_tie_break_first_in_input.1 envTie [tickA, tickB] ytd tickA 10
    [(tickA, 10), (tickB, 10)]
    (by
      have hA : get_return (envTie.series tickA ytd) = some 10 := by
        have hs : envTie.series tickA ytd = some [100, 110] := by
          simp [envTie]
        rw [hs]
        norm_num [get_return, round2, roundHE, List.getLastD]
      have hB : get_return (envTie.series tickB ytd) = some 10 := by
        have hs : envTie.series tickB ytd = some [50, 55] := by
          simp [envTie, tickA, tickB]
        rw [hs]
        norm_num [get_return, round2, roundHE, List.getLastD]
      simp only [tickA, tickB] at hA hB
      simp [compare_returns, buildDict, dictInsert, pyPick, pyRun, qMaxRel,
        hA, hB, tickA, tickB])

theorem resolveSub_shape (env : Env) (sub : String)
    (tcmp : List (String × JObj)) :
    resolveSub env sub (tcmp.map (fun tv => (tv.1, JVal.obj tv.2)))
      = some (tcmp.map (fun tv => (tv.1, JVal.obj (tv.2.map (fun pv =>
          (pv.1, cmpLeaf env sub (tcmp.map Prod.fst) pv.1 pv.2)))))) := by
  unfold resolveSub
  have hkeys : ((tcmp.map (fun tv => (tv.1, JVal.obj tv.2))).map Prod.fst)
      = tcmp.map Prod.fst := by
    rw [List.map_map]
    apply List.map_congr_left
    intro tv _
    rfl
  rw [hkeys]
  exact optTraverse_map (fun tv : String × JObj => (tv.1, JVal.obj tv.2))
    (fun tv => match tv.2 with
      | JVal.obj periods =>
          some (tv.1, JVal.obj (periods.map (fun pv =>
            (pv.1, cmpLeaf env sub (tcmp.map Prod.fst) pv.1 pv.2))))
      | _ => none)
    (fun tv => (tv.1, JVal.obj (tv.2.map (fun pv =>
        (pv.1, cmpLeaf env sub (tcmp.map Prod.fst) pv.1 pv.2)))))
    (fun tv => rfl) tcmp

/-- C7 (confirmed): under the compare branch the walker fills every
ticker/period slot of a sub-metric with the leaf produced by cmpLeaf
over the full ticker list of that sub-metric, and for a recognised
sub-metric the leaf is the comparator result alone — independent of the
placeholder and of which ticker the slot belongs to, so with the
external data fixed every ticker sharing a period holds the identical
comparison result. -/
theorem C7_compare_redundant_fill :
    (∀ env sub (tcmp : List (String × JObj)),
        walk env (JVal.obj [("compare", JVal.obj [(sub,
            JVal.obj (tcmp.map (fun tv => (tv.1, JVal.obj tv.2))))])])
          = Except.ok (JVal.obj [("compare", JVal.obj [(sub,
              JVal.obj (tcmp.map (fun tv => (tv.1, JVal.obj (tv.2.map (fun pv =>
                (pv.1, cmpLeaf env sub (tcmp.map Prod.fst) pv.1 pv.2)))))))])])) ∧
    (∀ env sub tickers p v1 v2,
        (sub = "return" ∨ sub = "volatility" ∨ sub = "fundamentals" ∨
          sub = "max_min") →
        cmpLeaf env sub tickers p v1 = cmpLeaf env sub tickers p v2) := by
  constructor
  · intro env sub tcmp
    simp [walk, optTraverse, resolveCompare, resolveSub_shape,
      Option.map_some']
  · intro env sub tickers p v1 v2 hrec
    rcases hrec with rfl | rfl | rfl | rfl <;> simp [cmpLeaf]

/-- Witness for C7: under the return sub-metric the filled leaf does
not depend on the placeholder it replaces. -/
theorem C7_compare_redundant_fill_witness :
    cmpLeaf envNone ("return") [tickA, tickB] ytd JVal.null
      = cmpLeaf envNone ("return") [tickA, tickB] ytd (JVal.num 7) :=
  C7_compare_redundant_fill.2 envNone ("return") [tickA, tickB] ytd
    JVal.null (JVal.num 7) (Or.inl rfl)

theorem resolvePeriods_unknown (env : Env) (name t : String) (periods : JObj)
    (h1 : name ≠ "return") (h2 : name ≠ "volatility")
    (h3 : name ≠ "max_min") :
    resolvePeriods env name t periods = periods := by
  unfold resolvePeriods
  calc periods.map (fun pv =>
          if name = "return" then
            (pv.1, jOpt ((get_return (env.series t pv.1)).map JVal.num))
          else if name = "volatility" then
            (pv.1, jOpt ((get_volatility (env.series t pv.1)).map JVal.real))
          else if name = "max_min" then
            (pv.1, jOpt ((get_max_min (env.series t pv.1)).map
              (fun mm => JVal.maxmin mm.1 mm.2)))
          else pv)
      = periods.map id := by
        apply List.map_congr_left
        intro pv _
        rw [if_neg h1, if_neg h2, if_neg h3]
        rfl
    _ = periods := List.map_id periods

theorem resolveMetricBranch_unknown (env : Env) (name : String)
    (tks : List (String × JObj)) (h0 : name ≠ "fundamentals")
    (h1 : name ≠ "return") (h2 : name ≠ "volatility")
    (h3 : name ≠ "max_min") :
    resolveMetricBranch env name
        (JVal.obj (tks.map (fun tv => (tv.1, JVal.obj tv.2))))
      = some (JVal.obj (tks.map (fun tv => (tv.1, JVal.obj tv.2)))) := by
  simp only [resolveMetricBranch]
  rw [if_neg h0]
  have htrav := optTraverse_map (fun tv : String × JObj => (tv.1, JVal.obj tv.2))
    (fun tv => match tv.2 with
      | JVal.obj periods =>
          some (tv.1, JVal.obj (resolvePeriods env name tv.1 periods))
      | _ => none)
    (fun tv => (tv.1, JVal.obj tv.2))
    (fun tv => by
      show some (tv.1, JVal.obj (resolvePeriods env name tv.1 tv.2))
        = some (tv.1, JVal.obj tv.2)
      rw [resolvePeriods_unknown env name tv.1 tv.2 h1 h2 h3]) tks
  rw [htrav]
  rfl

/-- C1 counterexample: the claim says a Structured Request holding a
branch with an unrecognised metric name is aborted with an error-status
response; the source silently skips such a branch when its subtree is a
mapping of mappings, and the endpoint answers with an ok-status
response carrying the untouched placeholders. -/
theorem C1_counterexample :
    receive_prompt
        (some (JVal.obj [(("bogus"),
          JVal.obj [(tickA, JVal.obj [(ytd, JVal.null)])])]))
        envNone (some ("summary text"))
      = Response.ok
          (JVal.obj [(("bogus"),
            JVal.obj [(tickA, JVal.obj [(ytd, JVal.null)])])])
          ("summary text") := rfl

/-- C1 (corrected): a branch whose name is unrecognised but whose
subtree is a mapping of tickers to period mappings is silently skipped
— the walk succeeds and the subtree is returned untouched; the walker
aborts with the single request-level fetch error precisely when the
request itself or a branch subtree is not traversable as a mapping; and
one ticker whose fetch fails under a valid branch leaves the sibling
ticker with a populated leaf. -/
theorem C1_walker_error_policy :
    (∀ env name (tks : List (String × JObj)),
        name ≠ "compare" → name ≠ "return" → name ≠ "volatility" →
        name ≠ "fundamentals" → name ≠ "max_min" →
        walk env (JVal.obj [(name,
            JVal.obj (tks.map (fun tv => (tv.1, JVal.obj tv.2))))])
          = Except.ok (JVal.obj [(name,
              JVal.obj (tks.map (fun tv => (tv.1, JVal.obj tv.2))))])) ∧
    (∀ env (q : ℚ), walk env (JVal.num q) = Except.error fetchErrorMsg) ∧
    (∀ env name (q : ℚ),
        walk env (JVal.obj [(name, JVal.num q)])
          = Except.error fetchErrorMsg) ∧
    (∀ env t1 t2 p (c : ℚ) (rest : List ℚ),
        env.series t1 p = none → env.series t2 p = some (c :: rest) →
        walk env (JVal.obj [(("return"),
            JVal.obj [(t1, JVal.obj [(p, JVal.null)]),
              (t2, JVal.obj [(p, JVal.null)])])])
          = Except.ok (JVal.obj [(("return"),
              JVal.obj [(t1, JVal.obj [(p, JVal.null)]),
                (t2, JVal.obj [(p, JVal.num (round2
                  (((c :: rest).getLastD 0 - c) / c * 100)))])])])) := by
  refine ⟨?_, ?_, ?_, ?_⟩
  · intro env name tks hc h1 h2 h0 h3
    simp only [walk, optTraverse]
    rw [if_neg hc, resolveMetricBranch_unknown env name tks h0 h1 h2 h3]
    rfl
  · intro env q; rfl
  · intro env name q
    by_cases h : name = "compare" <;>
      simp [walk, optTraverse, resolveCompare, resolveMetricBranch, h]
  · intro env t1 t2 p c rest henv1 henv2
    simp only [walk, optTraverse]
    rw [if_neg (by decide : ¬(("return" : String) = "compare"))]
    simp only [resolveMetricBranch]
    rw [if_neg (by decide : ¬(("return" : String) = "fundamentals"))]
    simp only [optTraverse]
    unfold resolvePeriods
    simp only [List.map_cons, List.map_nil,
      if_pos (rfl : ("return" : String) = "return"), henv1, henv2]
    simp [get_return, jOpt]

/-- Witness for C1: an unrecognised branch name over one ticker and one
period is skipped and the request succeeds. -/
theorem C1_walker_error_policy_witness :
    walk envNone (JVal.obj [(("bogus"),
        JVal.obj [(tickA, JVal.obj [(ytd, JVal.null)])])])
      = Except.ok (JVal.obj [(("bogus"),
          JVal.obj [(tickA, JVal.obj [(ytd, JVal.null)])])]) :=
  C1_walker_error_policy.1 envNone ("bogus") [(tickA, [(ytd, JVal.null)])]
    (by decide) (by decide) (by decide) (by decide) (by decide)

end FinanceAI
